import Mathlib

/-!
A shallow embedding of the `container-copier` daemon (`src/main.rs`): the
watch-configuration resolution engine (`Config::setup` / `Copyset::add_to_watch`),
the copy primitive (`ResolvedTarget::copy`) and the event-dispatch loop
(`Env::run`).  Filesystem and inotify interactions are modelled by a `World` of
deterministic oracles; observable side effects (copies performed, watches
registered, warnings logged) are collected in an `Effect` trace.
-/

namespace ContainerCopier

/-- An I/O error (`std::io::Error`), identified by an abstract code. -/
structure IoErr where
  code : Nat
deriving DecidableEq

/-- A filesystem path (`std::path::PathBuf`): an absolute flag and a list of
normal components.  Mirrors the parts of Rust path semantics the program uses:
`join`, `parent`, and equality. -/
structure FsPath where
  absolute : Bool
  components : List String
deriving DecidableEq

/-- `Path::join` / `PathBuf::push`: joining an absolute path replaces the
receiver; joining a relative path appends its components. -/
def pathJoin (p q : FsPath) : FsPath :=
  if q.absolute then q else ⟨p.absolute, p.components ++ q.components⟩

/-- `Path::parent`: `none` for an empty path or a bare root (`/`), otherwise
the path with the last component dropped. -/
def pathParent (p : FsPath) : Option FsPath :=
  match p.components with
  | [] => none
  | _ :: _ => some ⟨p.absolute, p.components.dropLast⟩

/-- The `NotifyEvent` enum of `src/main.rs` (one constructor per Rust
variant). -/
inductive NotifyEvent where
  | Access
  | Attrib
  | CloseWrite
  | CloseNoWrite
  | Create
  | Delete
  | DeleteSelf
  | Modify
  | MoveSelf
  | MovedFrom
  | MovedTo
  | Open
  | All
  | Move
  | Close
  | DontFollow
  | ExclUnlink
  | Oneshot
deriving DecidableEq

/-- Deserialization of a `NotifyEvent` from a string, as produced by
`#[derive(Deserialize)]` with `#[serde(alias = "...")]` on each variant:
serde accepts the Rust variant name itself in addition to the declared
upper-snake-case alias, and the match is case-sensitive. -/
def NotifyEvent.fromString (s : String) : Option NotifyEvent :=
  if s = "Access" ∨ s = "ACCESS" then some .Access
  else if s = "Attrib" ∨ s = "ATTRIB" then some .Attrib
  else if s = "CloseWrite" ∨ s = "CLOSE_WRITE" then some .CloseWrite
  else if s = "CloseNoWrite" ∨ s = "CLOSE_NOWRITE" then some .CloseNoWrite
  else if s = "Create" ∨ s = "CREATE" then some .Create
  else if s = "Delete" ∨ s = "DELETE" then some .Delete
  else if s = "DeleteSelf" ∨ s = "DELETE_SELF" then some .DeleteSelf
  else if s = "Modify" ∨ s = "MODIFY" then some .Modify
  else if s = "MoveSelf" ∨ s = "MOVE_SELF" then some .MoveSelf
  else if s = "MovedFrom" ∨ s = "MOVED_FROM" then some .MovedFrom
  else if s = "MovedTo" ∨ s = "MOVED_TO" then some .MovedTo
  else if s = "Open" ∨ s = "OPEN" then some .Open
  else if s = "All" ∨ s = "ALL" then some .All
  else if s = "Move" ∨ s = "MOVE" then some .Move
  else if s = "Close" ∨ s = "CLOSE" then some .Close
  else if s = "DontFollow" ∨ s = "DONT_FOLLOW" then some .DontFollow
  else if s = "ExclUnlink" ∨ s = "EXCL_UNLINK" then some .ExclUnlink
  else if s = "Oneshot" ∨ s = "ONESHOT" then some .Oneshot
  else none

/-- The eighteen upper-snake-case event strings listed by the specification
(§6) as the exact accepted set.  Transcribed from the spec for comparison with
the accepted set of `NotifyEvent.fromString`, which is derived from the
source. -/
def specRecognizedEventStrings : List String :=
  ["ACCESS", "ATTRIB", "CLOSE_WRITE", "CLOSE_NOWRITE", "CREATE", "DELETE",
   "DELETE_SELF", "MODIFY", "MOVE_SELF", "MOVED_FROM", "MOVED_TO", "OPEN",
   "ALL", "MOVE", "CLOSE", "DONT_FOLLOW", "EXCL_UNLINK", "ONESHOT"]

/-- The eighteen Rust variant names of the `NotifyEvent` enum, which serde's
derived deserializer also accepts (an `alias` attribute adds a name, it does
not replace the variant name). -/
def variantEventStrings : List String :=
  ["Access", "Attrib", "CloseWrite", "CloseNoWrite", "Create", "Delete",
   "DeleteSelf", "Modify", "MoveSelf", "MovedFrom", "MovedTo", "Open",
   "All", "Move", "Close", "DontFollow", "ExclUnlink", "Oneshot"]

/-- `From<NotifyEvent> for WatchMask`: the inotify mask bits
(`IN_ACCESS = 0x1`, ..., `IN_ONESHOT = 0x80000000`), with the compound
constants `MOVE = MOVED_FROM | MOVED_TO`, `CLOSE = CLOSE_WRITE | CLOSE_NOWRITE`
and `ALL_EVENTS = 0xfff`. -/
def watchMaskFrom : NotifyEvent → Nat
  | .Access => 0x00000001
  | .Attrib => 0x00000004
  | .CloseWrite => 0x00000008
  | .CloseNoWrite => 0x00000010
  | .Create => 0x00000100
  | .Delete => 0x00000200
  | .DeleteSelf => 0x00000400
  | .Modify => 0x00000002
  | .MoveSelf => 0x00000800
  | .MovedFrom => 0x00000040
  | .MovedTo => 0x00000080
  | .Open => 0x00000020
  | .All => 0x00000fff
  | .Move => 0x000000c0
  | .Close => 0x00000018
  | .DontFollow => 0x02000000
  | .ExclUnlink => 0x04000000
  | .Oneshot => 0x80000000

/-- `.map(WatchMask::from).collect::<WatchMask>()`: the union (bitwise or,
starting from the empty mask) of the masks of a list of events. -/
def watchMaskOfEvents (evs : List NotifyEvent) : Nat :=
  evs.foldl (fun acc e => acc ||| watchMaskFrom e) 0

/-- A `[[copysets.targets]]` entry (struct `Target` in `src/main.rs`). -/
structure Target where
  events : Option (List NotifyEvent)
  source : FsPath
  target : Option FsPath
deriving DecidableEq

/-- A `[[copysets]]` entry (struct `Copyset` in `src/main.rs`); the `events`
field carries `#[serde(default = "Config::default_events")]`, so a parsed
`Copyset` always holds a concrete list. -/
structure Copyset where
  name : String
  events : List NotifyEvent
  source : FsPath
  target : FsPath
  targets : List Target

/-- The whole parsed configuration (struct `Config`). -/
structure Config where
  copysets : List Copyset

/-- `Config::default_events`: the event list substituted by serde when a
copyset's `events` field is absent. -/
def Config.default_events : List NotifyEvent :=
  [.Create, .Delete, .Modify]

/-- Construction of a `Copyset` from parsed fields, applying the serde
`default = "Config::default_events"` attribute when the `events` field was
absent from the document. -/
def Copyset.ofParsed (name : String) (events : Option (List NotifyEvent))
    (source target : FsPath) (targets : List Target) : Copyset :=
  ⟨name, events.getD Config.default_events, source, target, targets⟩

/-- A resolved (source, target) pair (struct `ResolvedTarget`). -/
structure ResolvedTarget where
  source : FsPath
  target : FsPath
deriving DecidableEq

/-- The outcome of an operation that may return, fail with an I/O error, or
panic (Rust `unwrap` on `None`). -/
inductive Outcome (α : Type) where
  | ok (a : α)
  | err (e : IoErr)
  | panic
deriving DecidableEq

/-- The deterministic oracles standing for the filesystem and the inotify
subsystem: each field models one external call the program makes.  `addWatch`
returns the watch descriptor assigned by the subsystem, exactly as
`Watches::add` does; nothing constrains distinct calls to return distinct
descriptors (inotify returns the descriptor of the existing watch when the
same path is registered a second time on one instance). -/
structure World where
  initNotify : Except IoErr Unit
  tryExists : FsPath → Except IoErr Bool
  isFile : FsPath → Bool
  dirExists : FsPath → Bool
  createDirAll : FsPath → Except IoErr Unit
  copyFile : FsPath → FsPath → Except IoErr Unit
  addWatch : FsPath → Nat → Except IoErr Nat

/-- An observable side effect of setup or dispatch. -/
inductive Effect where
  | existsCheckWarned (target : FsPath)
  | copyInvoked (source target : FsPath)
  | watchRegistered (source : FsPath) (mask : Nat) (wd : Nat)
  | warnedUnknown (wd : Nat)
deriving DecidableEq

/-- Whether an effect is an invocation of the copy action. -/
def Effect.isCopy : Effect → Bool
  | .copyInvoked _ _ => true
  | _ => false

/-- The watch table: `HashMap<WatchDescriptor, ResolvedTarget>`, as an
association list where the most recent insertion is at the head. -/
abbrev Table := List (Nat × ResolvedTarget)

/-- Lookup in the watch table (`HashMap::get`). -/
def lookupTable : Table → Nat → Option ResolvedTarget
  | [], _ => none
  | (k, v) :: rest, wd => if k = wd then some v else lookupTable rest wd

/-- `HashMap::insert`: add the binding for `wd`, replacing any earlier entry
with the same key. -/
def tableInsert (tbl : Table) (wd : Nat) (rt : ResolvedTarget) : Table :=
  (wd, rt) :: tbl.filter (fun p => p.1 != wd)

/-- The watch descriptors carried by the registration effects of a trace, in
order. -/
def registeredWds (effs : List Effect) : List Nat :=
  effs.filterMap fun e =>
    match e with
    | .watchRegistered _ _ wd => some wd
    | _ => none

/-- The environment produced by `Config::setup` and consumed by `Env::run`:
the populated watch table. -/
structure Env where
  targets : Table

/-- `ResolvedTarget::copy`: take the target's parent directory (panicking, as
`.parent().unwrap()` does, when there is none), create it (with ancestors) if
it does not exist, then copy the source file over the target. -/
def ResolvedTarget.copy (w : World) (rt : ResolvedTarget) : Outcome Unit :=
  match pathParent rt.target with
  | none => .panic
  | some parent =>
    let dirStep : Except IoErr Unit :=
      if w.dirExists parent then .ok () else w.createDirAll parent
    match dirStep with
    | .error e => .err e
    | .ok _ =>
      match w.copyFile rt.source rt.target with
      | .error e => .err e
      | .ok _ => .ok ()

/-- The absolute source path of a target spec:
`copyset.source.join(&target_spec.source)`. -/
def resolvedSourcePath (cs : Copyset) (t : Target) : FsPath :=
  pathJoin cs.source t.source

/-- The absolute target path of a target spec:
`copyset.target.join(target_spec.target.as_ref().unwrap_or(&target_spec.source))`. -/
def resolvedTargetPath (cs : Copyset) (t : Target) : FsPath :=
  pathJoin cs.target (t.target.getD t.source)

/-- `target.try_exists() ... .unwrap_or(false)`: an existence-check failure is
logged and degraded to `false`. -/
def checkTargetExists (w : World) (p : FsPath) : Bool × List Effect :=
  match w.tryExists p with
  | .ok b => (b, [])
  | .error _ => (false, [.existsCheckWarned p])

/-- The event list actually used for a target spec: the spec's own `events`
when present, the copyset's otherwise (lines 189-196 of `src/main.rs`). -/
def effectiveEventList (cs : Copyset) (t : Target) : List NotifyEvent :=
  match t.events with
  | some evs => evs
  | none => cs.events

/-- The mask passed to `Watches::add` for a target spec. -/
def effectiveMask (cs : Copyset) (t : Target) : Nat :=
  watchMaskOfEvents (effectiveEventList cs t)

/-- The body of the per-target-spec loop of `Copyset::add_to_watch`, after the
existence check: optionally perform the initial reconciliation copy, then
register the watch and insert the (descriptor, resolved target) pair. -/
def addTargetSpecCore (w : World) (cs : Copyset) (tbl : Table) (t : Target)
    (targetExists : Bool) : Outcome Table × List Effect :=
  let source := resolvedSourcePath cs t
  let target := resolvedTargetPath cs t
  let rt : ResolvedTarget := ⟨source, target⟩
  let copyRes : Outcome Unit :=
    if w.isFile source && !targetExists then rt.copy w else .ok ()
  let copyEffs : List Effect :=
    if w.isFile source && !targetExists then [.copyInvoked source target] else []
  match copyRes with
  | .panic => (.panic, copyEffs)
  | .err e => (.err e, copyEffs)
  | .ok _ =>
    match w.addWatch source (effectiveMask cs t) with
    | .error e => (.err e, copyEffs)
    | .ok wd =>
      (.ok (tableInsert tbl wd rt),
       copyEffs ++ [.watchRegistered source (effectiveMask cs t) wd])

/-- One iteration of the target-spec loop of `Copyset::add_to_watch`:
existence check (degrading failures), then `addTargetSpecCore`. -/
def addTargetSpec (w : World) (cs : Copyset) (tbl : Table) (t : Target) :
    Outcome Table × List Effect :=
  let check := checkTargetExists w (resolvedTargetPath cs t)
  let core := addTargetSpecCore w cs tbl t check.1
  (core.1, check.2 ++ core.2)

/-- The loop of `Copyset::add_to_watch` over the copyset's target specs,
stopping at (and propagating) the first failure. -/
def addToWatchGo (w : World) (cs : Copyset) : Table → List Target →
    Outcome Table × List Effect
  | tbl, [] => (.ok tbl, [])
  | tbl, t :: rest =>
    match addTargetSpec w cs tbl t with
    | (.ok tbl', effs) =>
      let r := addToWatchGo w cs tbl' rest
      (r.1, effs ++ r.2)
    | (.err e, effs) => (.err e, effs)
    | (.panic, effs) => (.panic, effs)

/-- `Copyset::add_to_watch`. -/
def Copyset.add_to_watch (w : World) (cs : Copyset) (tbl : Table) :
    Outcome Table × List Effect :=
  addToWatchGo w cs tbl cs.targets

/-- The loop of `Config::setup` over the copysets, stopping at (and
propagating) the first failure. -/
def setupGo (w : World) : Table → List Copyset →
    Outcome Table × List Effect
  | tbl, [] => (.ok tbl, [])
  | tbl, cs :: rest =>
    match cs.add_to_watch w tbl with
    | (.ok tbl', effs) =>
      let r := setupGo w tbl' rest
      (r.1, effs ++ r.2)
    | (.err e, effs) => (.err e, effs)
    | (.panic, effs) => (.panic, effs)

/-- `Config::setup`: create the inotify instance, then process every copyset
in order, producing the environment on success. -/
def Config.setup (w : World) (c : Config) : Outcome Env × List Effect :=
  match w.initNotify with
  | .error e => (.err e, [])
  | .ok _ =>
    let r := setupGo w [] c.copysets
    match r.1 with
    | .ok tbl => (.ok ⟨tbl⟩, r.2)
    | .err e => (.err e, r.2)
    | .panic => (.panic, r.2)

/-- One item of the inotify event stream: an event carrying a watch
descriptor, or an error item. -/
inductive StreamItem where
  | ev (wd : Nat)
  | err (e : IoErr)
deriving DecidableEq

/-- The dispatch loop of `Env::run` over a stream of items: an error item
propagates; an event whose descriptor is in the table triggers a copy (whose
failure propagates); an unknown descriptor is logged and skipped; the end of
the stream returns normally. -/
def runLoop (w : World) (tbl : Table) : List StreamItem →
    Outcome Unit × List Effect
  | [] => (.ok (), [])
  | .err e :: _ => (.err e, [])
  | .ev wd :: rest =>
    match lookupTable tbl wd with
    | some rt =>
      match rt.copy w with
      | .panic => (.panic, [.copyInvoked rt.source rt.target])
      | .err e => (.err e, [.copyInvoked rt.source rt.target])
      | .ok _ =>
        let r := runLoop w tbl rest
        (r.1, .copyInvoked rt.source rt.target :: r.2)
    | none =>
      let r := runLoop w tbl rest
      (r.1, .warnedUnknown wd :: r.2)

/-- `Env::run`. -/
def Env.run (w : World) (env : Env) (items : List StreamItem) :
    Outcome Unit × List Effect :=
  runLoop w env.targets items

/-- The outcome of handling a single stream item in isolation (the table is
read-only, so items are independent): used to characterise the dispatch
loop. -/
def itemOutcome (w : World) (tbl : Table) : StreamItem → Outcome Unit
  | .err e => .err e
  | .ev wd =>
    match lookupTable tbl wd with
    | some rt => rt.copy w
    | none => .ok ()

/-- A world in which every external call succeeds, no target exists and no
source is a regular file. -/
def worldOk : World :=
  ⟨.ok (), fun _ => .ok false, fun _ => false, fun _ => true,
   fun _ => .ok (), fun _ _ => .ok (), fun _ _ => .ok 0⟩

/-- A world like `worldOk` whose existence check always fails. -/
def worldBadCheck : World :=
  ⟨.ok (), fun _ => .error ⟨3⟩, fun _ => false, fun _ => true,
   fun _ => .ok (), fun _ _ => .ok (), fun _ _ => .ok 0⟩

/-- A world in which the inotify instance cannot be created. -/
def worldNoNotify : World :=
  ⟨.error ⟨7⟩, fun _ => .ok false, fun _ => false, fun _ => true,
   fun _ => .ok (), fun _ _ => .ok (), fun _ _ => .ok 0⟩

/-- A world like `worldOk` in which every source path is a regular file. -/
def worldFile : World :=
  ⟨.ok (), fun _ => .ok false, fun _ => true, fun _ => true,
   fun _ => .ok (), fun _ _ => .ok (), fun _ _ => .ok 0⟩

/-- A world like `worldOk` in which every target path already exists. -/
def worldTargetsExist : World :=
  ⟨.ok (), fun _ => .ok true, fun _ => false, fun _ => true,
   fun _ => .ok (), fun _ _ => .ok (), fun _ _ => .ok 0⟩

/-- A world like `worldOk` in which watch registration always fails. -/
def worldBadWatch : World :=
  ⟨.ok (), fun _ => .ok false, fun _ => false, fun _ => true,
   fun _ => .ok (), fun _ _ => .ok (), fun _ _ => .error ⟨9⟩⟩

/-- Sample base source directory `/src`. -/
def srcBase : FsPath := ⟨true, ["src"]⟩

/-- Sample base target directory `/dst`. -/
def tgtBase : FsPath := ⟨true, ["dst"]⟩

/-- Sample relative path `a.txt`. -/
def relA : FsPath := ⟨false, ["a.txt"]⟩

/-- Sample relative path `b.txt`. -/
def relB : FsPath := ⟨false, ["b.txt"]⟩

/-- The bare filesystem root `/`. -/
def rootPath : FsPath := ⟨true, []⟩

/-- A target spec with neither target-path nor events override. -/
def sampleTarget : Target := ⟨none, relA, none⟩

/-- A target spec overriding the event list with `[ACCESS]`. -/
def sampleTargetOverride : Target := ⟨some [.Access], relA, none⟩

/-- A target spec whose events field is present but empty. -/
def sampleTargetEmptyEvents : Target := ⟨some [], relA, none⟩

/-- A sample copyset with the default event list and one plain target spec. -/
def sampleCopyset : Copyset :=
  ⟨"cfg", Config.default_events, srcBase, tgtBase, [sampleTarget]⟩

/-- A second target spec with the same relative source as `sampleTarget` but
an explicit, different target path. -/
def sampleTargetB : Target := ⟨none, relA, some relB⟩

/-- A copyset whose two target specs resolve to the same source path (one
source copied to two targets), so both watch registrations are for the same
path. -/
def dupCopyset : Copyset :=
  ⟨"dup", Config.default_events, srcBase, tgtBase, [sampleTarget, sampleTargetB]⟩
theorem lookupTable_mem {tbl : Table} {k : Nat} {v : ResolvedTarget}
    (h : lookupTable tbl k = some v) : k ∈ tbl.map Prod.fst := by
  induction tbl with
  | nil => simp [lookupTable] at h
  | cons p rest ih =>
    rcases p with ⟨k', v'⟩
    by_cases hk : k' = k
    · subst hk; simp
    · rw [lookupTable, if_neg hk] at h
      simpa using Or.inr (ih h)

theorem lookupTable_cons_ne {k' : Nat} {v' : ResolvedTarget} {tbl : Table} {k : Nat}
    (h : k' ≠ k) : lookupTable ((k', v') :: tbl) k = lookupTable tbl k := by
  rw [lookupTable, if_neg h]

theorem lookupTable_filter_ne {tbl : Table} {wd k : Nat} (h : k ≠ wd) :
    lookupTable (tbl.filter fun p => p.1 != wd) k = lookupTable tbl k := by
  induction tbl with
  | nil => rfl
  | cons p rest ih =>
    rcases p with ⟨k', v'⟩
    by_cases hk' : k' = wd
    · subst hk'
      simp only [List.filter_cons, bne_self_eq_false, Bool.false_eq_true, if_false]
      rw [ih, lookupTable, if_neg (fun he => h he.symm)]
    · have hb : ((k', v').1 != wd) = true := by simpa using hk'
      simp only [List.filter_cons, hb, if_true]
      by_cases hk : k' = k
      · subst hk
        rw [lookupTable, if_pos rfl, lookupTable, if_pos rfl]
      · rw [lookupTable, if_neg hk, lookupTable, if_neg hk, ih]

theorem lookupTable_tableInsert_ne {tbl : Table} {wd : Nat} {rt : ResolvedTarget}
    {k : Nat} (h : k ≠ wd) :
    lookupTable (tableInsert tbl wd rt) k = lookupTable tbl k := by
  rw [tableInsert, lookupTable, if_neg (fun he => h he.symm), lookupTable_filter_ne h]

theorem lookupTable_tableInsert_self (tbl : Table) (wd : Nat) (rt : ResolvedTarget) :
    lookupTable (tableInsert tbl wd rt) wd = some rt := by
  rw [tableInsert, lookupTable, if_pos rfl]

theorem nodup_keys_tableInsert {tbl : Table} {wd : Nat} {rt : ResolvedTarget}
    (h : (tbl.map Prod.fst).Nodup) :
    ((tableInsert tbl wd rt).map Prod.fst).Nodup := by
  rw [tableInsert, List.map_cons, List.nodup_cons]
  refine ⟨?_, ?_⟩
  · intro hmem
    obtain ⟨p, hp, hfst⟩ := List.mem_map.mp hmem
    have hne := List.of_mem_filter hp
    rw [hfst] at hne
    simp at hne
  · exact h.sublist ((List.filter_sublist tbl).map Prod.fst)

theorem registeredWds_append (l1 l2 : List Effect) :
    registeredWds (l1 ++ l2) = registeredWds l1 ++ registeredWds l2 :=
  List.filterMap_append l1 l2 _

theorem checkTargetExists_registeredWds (w : World) (p : FsPath) :
    registeredWds (checkTargetExists w p).2 = [] := by
  unfold checkTargetExists
  rcases w.tryExists p with e | b <;> simp [registeredWds]

theorem addTargetSpecCore_ok_shape {w : World} {cs : Copyset} {tbl : Table}
    {t : Target} {b : Bool} {tbl' : Table} {effs : List Effect}
    (h : addTargetSpecCore w cs tbl t b = (.ok tbl', effs)) :
    ∃ wd, w.addWatch (resolvedSourcePath cs t) (effectiveMask cs t) = .ok wd ∧
      tbl' = tableInsert tbl wd ⟨resolvedSourcePath cs t, resolvedTargetPath cs t⟩ ∧
      registeredWds effs = [wd] ∧
      ∃ pre, effs = pre ++
        [.watchRegistered (resolvedSourcePath cs t) (effectiveMask cs t) wd] := by
  simp only [addTargetSpecCore] at h
  by_cases hF : (w.isFile (resolvedSourcePath cs t) && !b) = true
  · simp only [hF, if_true] at h
    rcases hC : ResolvedTarget.copy w ⟨resolvedSourcePath cs t, resolvedTargetPath cs t⟩
      with u | e | _ <;> rw [hC] at h
    · rcases hW : w.addWatch (resolvedSourcePath cs t) (effectiveMask cs t)
        with e | wd <;> rw [hW] at h
      · simp at h
      · obtain ⟨h1, h2⟩ := Prod.mk.injEq .. ▸ h
        refine ⟨wd, rfl, (Outcome.ok.injEq .. ▸ h1).symm, ?_,
          ⟨[.copyInvoked (resolvedSourcePath cs t) (resolvedTargetPath cs t)], h2.symm⟩⟩
        rw [← h2]
        simp [registeredWds]
    · simp at h
    · simp at h
  · rw [Bool.not_eq_true] at hF
    simp only [hF, Bool.false_eq_true, if_false] at h
    rcases hW : w.addWatch (resolvedSourcePath cs t) (effectiveMask cs t)
      with e | wd <;> rw [hW] at h
    · simp at h
    · obtain ⟨h1, h2⟩ := Prod.mk.injEq .. ▸ h
      refine ⟨wd, rfl, (Outcome.ok.injEq .. ▸ h1).symm, ?_, ⟨[], by simpa using h2.symm⟩⟩
      rw [← h2]
      simp [registeredWds]

theorem addTargetSpec_ok_shape {w : World} {cs : Copyset} {tbl : Table}
    {t : Target} {tbl' : Table} {effs : List Effect}
    (h : addTargetSpec w cs tbl t = (.ok tbl', effs)) :
    ∃ wd, w.addWatch (resolvedSourcePath cs t) (effectiveMask cs t) = .ok wd ∧
      tbl' = tableInsert tbl wd ⟨resolvedSourcePath cs t, resolvedTargetPath cs t⟩ ∧
      registeredWds effs = [wd] ∧
      ∃ pre, effs = pre ++
        [.watchRegistered (resolvedSourcePath cs t) (effectiveMask cs t) wd] := by
  simp only [addTargetSpec] at h
  rcases hcore : addTargetSpecCore w cs tbl t
      (checkTargetExists w (resolvedTargetPath cs t)).1 with ⟨o, ce⟩
  rw [hcore] at h
  obtain ⟨h1, h2⟩ := Prod.mk.injEq .. ▸ h
  cases o with
  | ok s1 =>
    obtain ⟨wd, hW, hs, hreg, pre, hpre⟩ := addTargetSpecCore_ok_shape hcore
    refine ⟨wd, hW, ?_, ?_, ⟨(checkTargetExists w (resolvedTargetPath cs t)).2 ++ pre, ?_⟩⟩
    · cases Outcome.ok.injEq .. ▸ h1
      exact hs
    · rw [← h2, registeredWds_append, checkTargetExists_registeredWds, hreg]
      rfl
    · rw [← h2, hpre, List.append_assoc]
  | err e => simp at h1
  | panic => simp at h1

theorem checkTargetExists_copyCount (w : World) (p : FsPath) :
    ((checkTargetExists w p).2.countP Effect.isCopy) = 0 := by
  unfold checkTargetExists
  rcases w.tryExists p with e | b <;> simp [Effect.isCopy]

theorem addTargetSpecCore_copyCount (w : World) (cs : Copyset) (tbl : Table)
    (t : Target) (b : Bool) :
    ((addTargetSpecCore w cs tbl t b).2.countP Effect.isCopy) =
      if w.isFile (resolvedSourcePath cs t) && !b then 1 else 0 := by
  simp only [addTargetSpecCore]
  by_cases hF : (w.isFile (resolvedSourcePath cs t) && !b) = true
  · simp only [hF, if_true]
    rcases ResolvedTarget.copy w ⟨resolvedSourcePath cs t, resolvedTargetPath cs t⟩
      with u | e | _
    · rcases w.addWatch (resolvedSourcePath cs t) (effectiveMask cs t) with e | wd <;>
        simp [Effect.isCopy]
    · simp [Effect.isCopy]
    · simp [Effect.isCopy]
  · rw [Bool.not_eq_true] at hF
    simp only [hF, Bool.false_eq_true, if_false]
    rcases w.addWatch (resolvedSourcePath cs t) (effectiveMask cs t) with e | wd <;>
      simp [Effect.isCopy]

theorem addTargetSpec_copyCount (w : World) (cs : Copyset) (tbl : Table) (t : Target) :
    ((addTargetSpec w cs tbl t).2.countP Effect.isCopy) =
      if w.isFile (resolvedSourcePath cs t) &&
         !(checkTargetExists w (resolvedTargetPath cs t)).1 then 1 else 0 := by
  simp only [addTargetSpec]
  rw [List.countP_append, checkTargetExists_copyCount,
    addTargetSpecCore_copyCount]
  simp

theorem addTargetSpec_ok_copy_trace {w : World} {cs : Copyset} {tbl : Table}
    {t : Target} {tbl' : Table} {effs : List Effect}
    (h : addTargetSpec w cs tbl t = (.ok tbl', effs))
    (hf : w.isFile (resolvedSourcePath cs t) = true)
    (he : (checkTargetExists w (resolvedTargetPath cs t)).1 = false) :
    ∃ wd, w.addWatch (resolvedSourcePath cs t) (effectiveMask cs t) = .ok wd ∧
      effs = (checkTargetExists w (resolvedTargetPath cs t)).2 ++
        [.copyInvoked (resolvedSourcePath cs t) (resolvedTargetPath cs t),
         .watchRegistered (resolvedSourcePath cs t) (effectiveMask cs t) wd] := by
  simp only [addTargetSpec, addTargetSpecCore, he, hf] at h
  simp only [Bool.not_false, Bool.and_true, if_true] at h
  rcases hC : ResolvedTarget.copy w ⟨resolvedSourcePath cs t, resolvedTargetPath cs t⟩
    with u | e | _ <;> rw [hC] at h
  · rcases hW : w.addWatch (resolvedSourcePath cs t) (effectiveMask cs t)
      with e | wd <;> rw [hW] at h
    · simp at h
    · obtain ⟨h1, h2⟩ := Prod.mk.injEq .. ▸ h
      refine ⟨wd, rfl, ?_⟩
      simp [← h2]
  · simp at h
  · simp at h

theorem addToWatchGo_noCopy {w : World} {cs : Copyset} :
    ∀ (ts : List Target) (tbl : Table),
      (∀ t ∈ ts, (checkTargetExists w (resolvedTargetPath cs t)).1 = true) →
      ((addToWatchGo w cs tbl ts).2.countP Effect.isCopy) = 0 := by
  intro ts
  induction ts with
  | nil => intro tbl _; simp [addToWatchGo]
  | cons t rest ih =>
    intro tbl hall
    have hone : ((addTargetSpec w cs tbl t).2.countP Effect.isCopy) = 0 := by
      rw [addTargetSpec_copyCount, hall t (by simp)]
      simp
    simp only [addToWatchGo]
    rcases hA : addTargetSpec w cs tbl t with ⟨o, effs⟩
    rw [hA] at hone
    cases o with
    | ok tbl1 =>
      simp only [List.countP_append]
      rw [hone, ih tbl1 (fun t' ht' => hall t' (by simp [ht']))]
    | err e => simpa using hone
    | panic => simpa using hone

theorem setupGo_noCopy {w : World} :
    ∀ (css : List Copyset) (tbl : Table),
      (∀ cs ∈ css, ∀ t ∈ cs.targets,
        (checkTargetExists w (resolvedTargetPath cs t)).1 = true) →
      ((setupGo w tbl css).2.countP Effect.isCopy) = 0 := by
  intro css
  induction css with
  | nil => intro tbl _; simp [setupGo]
  | cons cs rest ih =>
    intro tbl hall
    have hone : ((cs.add_to_watch w tbl).2.countP Effect.isCopy) = 0 :=
      addToWatchGo_noCopy cs.targets tbl (hall cs (by simp))
    simp only [setupGo]
    rcases hA : cs.add_to_watch w tbl with ⟨o, effs⟩
    rw [hA] at hone
    cases o with
    | ok tbl1 =>
      simp only [List.countP_append]
      rw [hone, ih tbl1 (fun cs' hcs' => hall cs' (by simp [hcs']))]
    | err e => simpa using hone
    | panic => simpa using hone

theorem addToWatchGo_preserves {w : World} {cs : Copyset} :
    ∀ (ts : List Target) (tbl tbl' : Table) (effs : List Effect),
      addToWatchGo w cs tbl ts = (.ok tbl', effs) →
      ((tbl.map Prod.fst).Nodup → (tbl'.map Prod.fst).Nodup) ∧
      (∀ k v, lookupTable tbl k = some v → k ∉ registeredWds effs →
        lookupTable tbl' k = some v) := by
  intro ts
  induction ts with
  | nil =>
    intro tbl tbl' effs h
    simp only [addToWatchGo] at h
    obtain ⟨h1, h2⟩ := Prod.mk.injEq .. ▸ h
    cases Outcome.ok.injEq .. ▸ h1
    exact ⟨fun hnd => hnd, fun k v hv _ => hv⟩
  | cons t rest ih =>
    intro tbl tbl' effs h
    simp only [addToWatchGo] at h
    rcases hA : addTargetSpec w cs tbl t with ⟨o, effs0⟩
    rw [hA] at h
    cases o with
    | ok tbl1 =>
      dsimp only at h
      rcases hG : addToWatchGo w cs tbl1 rest with ⟨o2, effs2⟩
      rw [hG] at h
      dsimp only at h
      obtain ⟨h1, h2⟩ := Prod.mk.injEq .. ▸ h
      obtain ⟨wd, hW, hs, hreg, -⟩ := addTargetSpec_ok_shape hA
      subst hs
      obtain ⟨ihnd, ihpres⟩ := ih _ tbl' effs2 (by rw [hG, h1])
      refine ⟨fun hnd => ihnd (nodup_keys_tableInsert hnd), ?_⟩
      intro k v hv hk
      rw [← h2, registeredWds_append, hreg] at hk
      simp only [List.mem_append, List.mem_singleton, not_or] at hk
      obtain ⟨hkwd, hk2⟩ := hk
      exact ihpres k v (by rw [lookupTable_tableInsert_ne hkwd]; exact hv) hk2
    | err e => simp at h
    | panic => simp at h

theorem setupGo_preserves {w : World} :
    ∀ (css : List Copyset) (tbl tbl' : Table) (effs : List Effect),
      setupGo w tbl css = (.ok tbl', effs) →
      ((tbl.map Prod.fst).Nodup → (tbl'.map Prod.fst).Nodup) ∧
      (∀ k v, lookupTable tbl k = some v → k ∉ registeredWds effs →
        lookupTable tbl' k = some v) := by
  intro css
  induction css with
  | nil =>
    intro tbl tbl' effs h
    simp only [setupGo] at h
    obtain ⟨h1, h2⟩ := Prod.mk.injEq .. ▸ h
    cases Outcome.ok.injEq .. ▸ h1
    exact ⟨fun hnd => hnd, fun k v hv _ => hv⟩
  | cons cs rest ih =>
    intro tbl tbl' effs h
    simp only [setupGo] at h
    rcases hA : cs.add_to_watch w tbl with ⟨o, effs0⟩
    rw [hA] at h
    cases o with
    | ok tbl1 =>
      dsimp only at h
      rcases hG : setupGo w tbl1 rest with ⟨o2, effs2⟩
      rw [hG] at h
      dsimp only at h
      obtain ⟨h1, h2⟩ := Prod.mk.injEq .. ▸ h
      obtain ⟨snd, spres⟩ := addToWatchGo_preserves cs.targets tbl tbl1 effs0 hA
      obtain ⟨ihnd, ihpres⟩ := ih tbl1 tbl' effs2 (by rw [hG, h1])
      refine ⟨fun hnd => ihnd (snd hnd), ?_⟩
      intro k v hv hk
      rw [← h2, registeredWds_append] at hk
      simp only [List.mem_append, not_or] at hk
      obtain ⟨hk1, hk2⟩ := hk
      exact ihpres k v (spres k v hv hk1) hk2
    | err e => simp at h
    | panic => simp at h

theorem setup_ok_inv {w : World} {c : Config} {env : Env} {effs : List Effect}
    (h : Config.setup w c = (.ok env, effs)) :
    ∃ tbl, setupGo w [] c.copysets = (.ok tbl, effs) ∧ env.targets = tbl := by
  simp only [Config.setup] at h
  rcases hI : w.initNotify with e | u <;> rw [hI] at h
  · simp at h
  · rcases hG : setupGo w [] c.copysets with ⟨o, effs'⟩
    rw [hG] at h
    dsimp only at h
    cases o with
    | ok tbl =>
      obtain ⟨h1, h2⟩ := Prod.mk.injEq .. ▸ h
      refine ⟨tbl, ?_, ?_⟩
      · rw [← h2]
      · cases Outcome.ok.injEq .. ▸ h1
        rfl
    | err e => simp at h
    | panic => simp at h

theorem setupGo_append_ok {w : World} :
    ∀ (pre : List Copyset) (tbl tbl1 : Table) (effs1 : List Effect),
      setupGo w tbl pre = (.ok tbl1, effs1) → ∀ (rest : List Copyset),
      setupGo w tbl (pre ++ rest) =
        ((setupGo w tbl1 rest).1, effs1 ++ (setupGo w tbl1 rest).2) := by
  intro pre
  induction pre with
  | nil =>
    intro tbl tbl1 effs1 h rest
    simp only [setupGo] at h
    obtain ⟨h1, h2⟩ := Prod.mk.injEq .. ▸ h
    cases Outcome.ok.injEq .. ▸ h1
    subst h2
    simp
  | cons cs pre' ih =>
    intro tbl tbl1 effs1 h rest
    simp only [setupGo] at h ⊢
    rcases hA : cs.add_to_watch w tbl with ⟨o, effs0⟩
    rw [hA] at h
    cases o with
    | ok tbl0 =>
      dsimp only at h ⊢
      simp only [List.append_eq] at h ⊢
      rcases hG : setupGo w tbl0 pre' with ⟨o2, effs2⟩
      rw [hG] at h
      dsimp only at h
      obtain ⟨h1, h2⟩ := Prod.mk.injEq .. ▸ h
      have hpre : setupGo w tbl0 pre' = (.ok tbl1, effs2) := by rw [hG, h1]
      rw [ih tbl0 tbl1 effs2 hpre rest]
      subst h2
      simp [List.append_assoc]
    | err e => simp at h
    | panic => simp at h

theorem addToWatchGo_err_head {w : World} {cs : Copyset} {tbl : Table}
    {t : Target} {e : IoErr} {effs : List Effect}
    (h : addTargetSpec w cs tbl t = (.err e, effs)) (rest : List Target) :
    addToWatchGo w cs tbl (t :: rest) = (.err e, effs) := by
  simp only [addToWatchGo]
  rw [h]

theorem setupGo_err_head {w : World} {cs : Copyset} {tbl : Table}
    {e : IoErr} {effs : List Effect}
    (h : cs.add_to_watch w tbl = (.err e, effs)) (rest : List Copyset) :
    setupGo w tbl (cs :: rest) = (.err e, effs) := by
  simp only [setupGo]
  rw [h]

theorem runLoop_cons_ok {w : World} {tbl : Table} {x : StreamItem}
    (h : itemOutcome w tbl x = .ok ()) (rest : List StreamItem) :
    (runLoop w tbl (x :: rest)).1 = (runLoop w tbl rest).1 := by
  cases x with
  | err e => simp [itemOutcome] at h
  | ev wd =>
    simp only [itemOutcome] at h
    rcases hL : lookupTable tbl wd with _ | rt <;> rw [hL] at h
    · simp [runLoop, hL]
    · dsimp only at h
      simp [runLoop, hL, h]

theorem runLoop_cons_err {w : World} {tbl : Table} {x : StreamItem} {e : IoErr}
    (h : itemOutcome w tbl x = .err e) (rest : List StreamItem) :
    (runLoop w tbl (x :: rest)).1 = .err e := by
  cases x with
  | err e' =>
    simp only [itemOutcome] at h
    cases Outcome.err.injEq .. ▸ h
    simp [runLoop]
  | ev wd =>
    simp only [itemOutcome] at h
    rcases hL : lookupTable tbl wd with _ | rt <;> rw [hL] at h
    · simp at h
    · dsimp only at h
      simp [runLoop, hL, h]

theorem runLoop_cons_panic {w : World} {tbl : Table} {x : StreamItem}
    (h : itemOutcome w tbl x = .panic) (rest : List StreamItem) :
    (runLoop w tbl (x :: rest)).1 = .panic := by
  cases x with
  | err e' => simp [itemOutcome] at h
  | ev wd =>
    simp only [itemOutcome] at h
    rcases hL : lookupTable tbl wd with _ | rt <;> rw [hL] at h
    · simp at h
    · dsimp only at h
      simp [runLoop, hL, h]

theorem runLoop_err_iff {w : World} {tbl : Table} :
    ∀ (items : List StreamItem) (e : IoErr),
      (runLoop w tbl items).1 = .err e ↔
      ∃ pre it post, items = pre ++ it :: post ∧
        (∀ x ∈ pre, itemOutcome w tbl x = .ok ()) ∧
        itemOutcome w tbl it = .err e := by
  intro items
  induction items with
  | nil =>
    intro e
    constructor
    · intro h; simp [runLoop] at h
    · rintro ⟨pre, it, post, habs, -, -⟩
      exact absurd habs (by simp)
  | cons x rest ih =>
    intro e
    rcases hx : itemOutcome w tbl x with u | e' | _
    · cases u
      constructor
      · intro h
        rw [runLoop_cons_ok hx rest] at h
        obtain ⟨pre, it, post, heq, hpre, hit⟩ := (ih e).mp h
        refine ⟨x :: pre, it, post, by rw [heq]; rfl, ?_, hit⟩
        intro y hy
        rcases List.mem_cons.mp hy with rfl | hy'
        · exact hx
        · exact hpre y hy'
      · rintro ⟨pre, it, post, heq, hpre, hit⟩
        rw [runLoop_cons_ok hx rest]
        cases pre with
        | nil =>
          simp only [List.nil_append, List.cons.injEq] at heq
          obtain ⟨rfl, rfl⟩ := heq
          rw [hx] at hit
          simp at hit
        | cons y pre' =>
          simp only [List.cons_append, List.cons.injEq] at heq
          obtain ⟨rfl, heq'⟩ := heq
          exact (ih e).mpr ⟨pre', it, post, heq',
            fun z hz => hpre z (List.mem_cons_of_mem _ hz), hit⟩
    · constructor
      · intro h
        rw [runLoop_cons_err hx rest] at h
        cases Outcome.err.injEq .. ▸ h
        exact ⟨[], x, rest, rfl, by simp, hx⟩
      · rintro ⟨pre, it, post, heq, hpre, hit⟩
        cases pre with
        | nil =>
          simp only [List.nil_append, List.cons.injEq] at heq
          obtain ⟨rfl, rfl⟩ := heq
          rw [hx] at hit
          cases Outcome.err.injEq .. ▸ hit
          exact runLoop_cons_err hx rest
        | cons y pre' =>
          simp only [List.cons_append, List.cons.injEq] at heq
          obtain ⟨rfl, heq'⟩ := heq
          have := hpre x (by simp)
          rw [hx] at this
          simp at this
    · constructor
      · intro h
        rw [runLoop_cons_panic hx rest] at h
        simp at h
      · rintro ⟨pre, it, post, heq, hpre, hit⟩
        cases pre with
        | nil =>
          simp only [List.nil_append, List.cons.injEq] at heq
          obtain ⟨rfl, rfl⟩ := heq
          rw [hx] at hit
          simp at hit
        | cons y pre' =>
          simp only [List.cons_append, List.cons.injEq] at heq
          obtain ⟨rfl, heq'⟩ := heq
          have := hpre x (by simp)
          rw [hx] at this
          simp at this

theorem runLoop_ok_iff {w : World} {tbl : Table} :
    ∀ (items : List StreamItem), (runLoop w tbl items).1 = .ok () ↔
      ∀ x ∈ items, itemOutcome w tbl x = .ok () := by
  intro items
  induction items with
  | nil => simp [runLoop]
  | cons x rest ih =>
    rcases hx : itemOutcome w tbl x with u | e' | _
    · cases u
      constructor
      · intro h y hy
        rw [runLoop_cons_ok hx rest] at h
        rcases List.mem_cons.mp hy with rfl | hy'
        · exact hx
        · exact ih.mp h y hy'
      · intro hall
        rw [runLoop_cons_ok hx rest]
        exact ih.mpr (fun y hy => hall y (List.mem_cons_of_mem _ hy))
    · constructor
      · intro h
        rw [runLoop_cons_err hx rest] at h
        simp at h
      · intro hall
        have := hall x (by simp)
        rw [hx] at this
        simp at this
    · constructor
      · intro h
        rw [runLoop_cons_panic hx rest] at h
        simp at h
      · intro hall
        have := hall x (by simp)
        rw [hx] at this
        simp at this

theorem runLoop_ext {w : World} {tbl1 tbl2 : Table}
    (h : ∀ k, lookupTable tbl1 k = lookupTable tbl2 k) :
    ∀ (items : List StreamItem), runLoop w tbl1 items = runLoop w tbl2 items := by
  intro items
  induction items with
  | nil => rfl
  | cons x rest ih =>
    cases x with
    | err e => rfl
    | ev wd => simp only [runLoop, h wd, ih]

theorem fromString_isSome_iff (s : String) :
    (NotifyEvent.fromString s).isSome = true ↔
      (s ∈ specRecognizedEventStrings ∨ s ∈ variantEventStrings) := by
  by_cases hmem : s ∈ specRecognizedEventStrings ∨ s ∈ variantEventStrings
  · simp only [hmem, iff_true]
    rcases hmem with hs | hs <;>
    · simp only [specRecognizedEventStrings, variantEventStrings,
        List.mem_cons, List.mem_singleton, List.not_mem_nil, or_false] at hs
      rcases hs with rfl | rfl | rfl | rfl | rfl | rfl | rfl | rfl | rfl |
        rfl | rfl | rfl | rfl | rfl | rfl | rfl | rfl | rfl <;> decide
  · simp only [hmem, iff_false]
    push_neg at hmem
    obtain ⟨h1, h2⟩ := hmem
    simp only [specRecognizedEventStrings, variantEventStrings,
      List.mem_cons, List.mem_singleton, List.not_mem_nil, or_false,
      not_or] at h1 h2
    unfold NotifyEvent.fromString
    obtain ⟨a1, a2, a3, a4, a5, a6, a7, a8, a9, a10, a11, a12, a13, a14,
      a15, a16, a17, a18⟩ := h1
    obtain ⟨b1, b2, b3, b4, b5, b6, b7, b8, b9, b10, b11, b12, b13, b14,
      b15, b16, b17, b18⟩ := h2
    simp [a1, a2, a3, a4, a5, a6, a7, a8, a9, a10, a11, a12, a13, a14,
      a15, a16, a17, a18, b1, b2, b3, b4, b5, b6, b7, b8, b9, b10, b11,
      b12, b13, b14, b15, b16, b17, b18]

theorem copy_no_panic_of_parent {w : World} {rt : ResolvedTarget}
    (h : rt.target.components ≠ []) :
    ResolvedTarget.copy w rt = .ok () ∨ ∃ e, ResolvedTarget.copy w rt = .err e := by
  simp only [ResolvedTarget.copy, pathParent]
  rcases hc : rt.target.components with _ | ⟨a, l⟩
  · exact absurd hc h
  · rcases hstep : (if w.dirExists ⟨rt.target.absolute, (a :: l).dropLast⟩
        then Except.ok () else w.createDirAll ⟨rt.target.absolute, (a :: l).dropLast⟩)
      with e | u
    · right
      exact ⟨e, by simp [hc, hstep]⟩
    · rcases hcf : w.copyFile rt.source rt.target with e | u
      · right
        exact ⟨e, by simp [hc, hstep, hcf]⟩
      · left
        simp [hc, hstep, hcf]

theorem addTargetSpec_check_failed {w : World} {cs : Copyset} {t : Target} {e : IoErr}
    (tbl : Table) (h : w.tryExists (resolvedTargetPath cs t) = .error e) :
    addTargetSpec w cs tbl t =
      ((addTargetSpecCore w cs tbl t false).1,
       .existsCheckWarned (resolvedTargetPath cs t) ::
         (addTargetSpecCore w cs tbl t false).2) := by
  simp only [addTargetSpec, checkTargetExists, h, List.singleton_append]

/-- C1: for every copyset and target spec, the mask passed to watch
registration is the mask of the target spec's event override when present,
and the mask of the copyset's default event list otherwise; a copyset parsed
without an events field gets exactly the default list CREATE, DELETE,
MODIFY. -/
theorem watch_mask_override_semantics :
    (∀ (cs : Copyset) (t : Target) (evs : List NotifyEvent),
      t.events = some evs → effectiveMask cs t = watchMaskOfEvents evs) ∧
    (∀ (cs : Copyset) (t : Target),
      t.events = none → effectiveMask cs t = watchMaskOfEvents cs.events) ∧
    (∀ (w : World) (cs : Copyset) (tbl : Table) (t : Target)
        (tbl' : Table) (effs : List Effect),
      addTargetSpec w cs tbl t = (.ok tbl', effs) →
      ∃ wd pre, w.addWatch (resolvedSourcePath cs t) (effectiveMask cs t) = .ok wd ∧
        effs = pre ++
          [.watchRegistered (resolvedSourcePath cs t) (effectiveMask cs t) wd]) ∧
    (∀ (name : String) (src tgt : FsPath) (ts : List Target),
      (Copyset.ofParsed name none src tgt ts).events = [.Create, .Delete, .Modify]) := by
  refine ⟨?_, ?_, ?_, ?_⟩
  · intro cs t evs h
    simp [effectiveMask, effectiveEventList, h]
  · intro cs t h
    simp [effectiveMask, effectiveEventList, h]
  · intro w cs tbl t tbl' effs h
    obtain ⟨wd, hW, -, -, pre, hpre⟩ := addTargetSpec_ok_shape h
    exact ⟨wd, pre, hW, hpre⟩
  · intro name src tgt ts
    rfl

/-- Witness for C1 at concrete inputs. -/
theorem watch_mask_override_semantics_witness :
    effectiveMask sampleCopyset sampleTargetOverride =
      watchMaskOfEvents [NotifyEvent.Access] ∧
    effectiveMask sampleCopyset sampleTarget = watchMaskOfEvents sampleCopyset.events ∧
    (∃ wd pre, worldOk.addWatch (resolvedSourcePath sampleCopyset sampleTarget)
        (effectiveMask sampleCopyset sampleTarget) = .ok wd ∧
      [Effect.watchRegistered (pathJoin srcBase relA) 770 0] = pre ++
        [Effect.watchRegistered (resolvedSourcePath sampleCopyset sampleTarget)
          (effectiveMask sampleCopyset sampleTarget) wd]) ∧
    (Copyset.ofParsed "cfg" none srcBase tgtBase []).events =
      [NotifyEvent.Create, NotifyEvent.Delete, NotifyEvent.Modify] := by
  have h := watch_mask_override_semantics
  exact ⟨h.1 sampleCopyset sampleTargetOverride [NotifyEvent.Access] rfl,
    h.2.1 sampleCopyset sampleTarget rfl,
    h.2.2.1 worldOk sampleCopyset [] sampleTarget
      [(0, ⟨pathJoin srcBase relA, pathJoin tgtBase relA⟩)]
      [Effect.watchRegistered (pathJoin srcBase relA) 770 0] rfl,
    h.2.2.2 "cfg" srcBase tgtBase []⟩

/-- C2: per target spec, the copy action is invoked during setup exactly once
when the resolved source is a regular file and the target was determined not
to exist, and zero times otherwise; when invoked it appears in the trace
immediately before the watch registration for that source; and a setup run in
which every resolved target exists performs zero initial copies. -/
theorem initial_copy_semantics :
    (∀ (w : World) (cs : Copyset) (tbl : Table) (t : Target),
      ((addTargetSpec w cs tbl t).2.countP Effect.isCopy) =
        if w.isFile (resolvedSourcePath cs t) &&
           !(checkTargetExists w (resolvedTargetPath cs t)).1 then 1 else 0) ∧
    (∀ (w : World) (cs : Copyset) (tbl : Table) (t : Target)
        (tbl' : Table) (effs : List Effect),
      addTargetSpec w cs tbl t = (.ok tbl', effs) →
      w.isFile (resolvedSourcePath cs t) = true →
      (checkTargetExists w (resolvedTargetPath cs t)).1 = false →
      ∃ wd, w.addWatch (resolvedSourcePath cs t) (effectiveMask cs t) = .ok wd ∧
        effs = (checkTargetExists w (resolvedTargetPath cs t)).2 ++
          [.copyInvoked (resolvedSourcePath cs t) (resolvedTargetPath cs t),
           .watchRegistered (resolvedSourcePath cs t) (effectiveMask cs t) wd]) ∧
    (∀ (w : World) (c : Config),
      (∀ cs ∈ c.copysets, ∀ t ∈ cs.targets,
        w.tryExists (resolvedTargetPath cs t) = .ok true) →
      ((Config.setup w c).2.countP Effect.isCopy) = 0) := by
  refine ⟨fun w cs tbl t => addTargetSpec_copyCount w cs tbl t,
    fun w cs tbl t tbl' effs h hf he => addTargetSpec_ok_copy_trace h hf he, ?_⟩
  intro w c hall
  have h0 : ((setupGo w [] c.copysets).2.countP Effect.isCopy) = 0 :=
    setupGo_noCopy c.copysets []
      (fun cs hcs t ht => by simp [checkTargetExists, hall cs hcs t ht])
  simp only [Config.setup]
  rcases hI : w.initNotify with e | u
  · simp
  · rcases hG : setupGo w [] c.copysets with ⟨o, effs⟩
    rw [hG] at h0
    cases o <;> simpa using h0

/-- Witness for C2 at concrete inputs. -/
theorem initial_copy_semantics_witness :
    (∃ wd, worldFile.addWatch (resolvedSourcePath sampleCopyset sampleTarget)
        (effectiveMask sampleCopyset sampleTarget) = .ok wd ∧
      [Effect.copyInvoked (pathJoin srcBase relA) (pathJoin tgtBase relA),
       Effect.watchRegistered (pathJoin srcBase relA) 770 0] =
        (checkTargetExists worldFile
          (resolvedTargetPath sampleCopyset sampleTarget)).2 ++
          [Effect.copyInvoked (resolvedSourcePath sampleCopyset sampleTarget)
             (resolvedTargetPath sampleCopyset sampleTarget),
           Effect.watchRegistered (resolvedSourcePath sampleCopyset sampleTarget)
             (effectiveMask sampleCopyset sampleTarget) wd]) ∧
    ((Config.setup worldTargetsExist ⟨[sampleCopyset]⟩).2.countP Effect.isCopy) = 0 := by
  have h := initial_copy_semantics
  refine ⟨?_, ?_⟩
  · exact h.2.1 worldFile sampleCopyset [] sampleTarget
      [(0, ⟨pathJoin srcBase relA, pathJoin tgtBase relA⟩)]
      [Effect.copyInvoked (pathJoin srcBase relA) (pathJoin tgtBase relA),
       Effect.watchRegistered (pathJoin srcBase relA) 770 0] rfl rfl rfl
  · exact h.2.2 worldTargetsExist ⟨[sampleCopyset]⟩
      (fun cs hcs t ht => rfl)

/-- C3 counterexample: the string "Access" (the Rust variant name, not one of
the eighteen upper-snake-case strings) is accepted by the configuration
deserializer, so the accepted set is not exactly the eighteen listed
strings. -/
theorem event_strings_counterexample :
    (NotifyEvent.fromString "Access").isSome = true ∧
    specRecognizedEventStrings.contains "Access" = false := by
  decide

/-- C3 (amended): the set of accepted event-name strings is exactly the
eighteen upper-snake-case alias strings together with the eighteen CamelCase
Rust variant names; every other string is rejected. -/
theorem event_strings_amended :
    ∀ s : String, (NotifyEvent.fromString s).isSome = true ↔
      (s ∈ specRecognizedEventStrings ∨ s ∈ variantEventStrings) :=
  fromString_isSome_iff

/-- Witness for the amended C3 at a concrete string. -/
theorem event_strings_amended_witness :
    (NotifyEvent.fromString "ACCESS").isSome = true :=
  (event_strings_amended "ACCESS").mpr (Or.inl (by decide))

/-- C5 counterexample: with a well-formed absolute source path and the
well-formed absolute target path `/` (the bare root), the copy action panics
at the parent-directory determination instead of returning a result or an
I/O error. -/
theorem copy_parent_panic_counterexample :
    ResolvedTarget.copy worldOk ⟨⟨true, ["src", "a.txt"]⟩, rootPath⟩ = .panic := rfl

/-- C5 (amended): for every pair of paths whose target has a parent directory
(a nonempty component list), the copy action runs to a normal result or an
I/O error and never panics. -/
theorem copy_runs_to_result_amended :
    ∀ (w : World) (rt : ResolvedTarget), rt.target.components ≠ [] →
      ResolvedTarget.copy w rt = .ok () ∨ ∃ e, ResolvedTarget.copy w rt = .err e :=
  fun _ _ h => copy_no_panic_of_parent h

/-- Witness for the amended C5 at concrete paths. -/
theorem copy_runs_to_result_amended_witness :
    ResolvedTarget.copy worldOk ⟨pathJoin srcBase relA, pathJoin tgtBase relA⟩ = .ok () ∨
    ∃ e, ResolvedTarget.copy worldOk ⟨pathJoin srcBase relA, pathJoin tgtBase relA⟩ =
      .err e :=
  copy_runs_to_result_amended worldOk
    ⟨pathJoin srcBase relA, pathJoin tgtBase relA⟩ (by decide)

/-- C4 counterexample: with the copyset `dupCopyset`, whose two target specs
share one resolved source path, the subsystem returns the same watch
descriptor for both registrations (as inotify does for a re-registered path),
and the second `HashMap::insert` replaces the first entry: right after the
first target spec the table maps descriptor 0 to the first resolved target,
but setup's final table maps it to the second, a different value. -/
theorem watch_table_replacement_counterexample :
    (addTargetSpec worldOk dupCopyset [] sampleTarget).1 =
      .ok [(0, ⟨pathJoin srcBase relA, pathJoin tgtBase relA⟩)] ∧
    (Config.setup worldOk ⟨[dupCopyset]⟩).1 =
      .ok ⟨[(0, ⟨pathJoin srcBase relA, pathJoin tgtBase relB⟩)]⟩ ∧
    (⟨pathJoin srcBase relA, pathJoin tgtBase relB⟩ : ResolvedTarget) ≠
      ⟨pathJoin srcBase relA, pathJoin tgtBase relA⟩ := by
  refine ⟨rfl, rfl, by decide⟩

/-- C4 (amended): an entry of the watch table is never removed, and is
replaced only when a later registration returns its already-used descriptor
(which the subsystem does when two target specs resolve to the same source
path): any entry whose descriptor is not registered again survives setup
unchanged; the table keys stay pairwise distinct (it is a map); and the
dispatch loop depends on the table only through lookups. -/
theorem watch_table_append_only_amended :
    (∀ (w : World) (css : List Copyset) (tbl tbl' : Table) (effs : List Effect),
      setupGo w tbl css = (.ok tbl', effs) →
      ∀ k v, lookupTable tbl k = some v → k ∉ registeredWds effs →
        lookupTable tbl' k = some v) ∧
    (∀ (w : World) (c : Config) (env : Env) (effs : List Effect),
      Config.setup w c = (.ok env, effs) → (env.targets.map Prod.fst).Nodup) ∧
    (∀ (w : World) (tbl1 tbl2 : Table),
      (∀ k, lookupTable tbl1 k = lookupTable tbl2 k) →
      ∀ items, runLoop w tbl1 items = runLoop w tbl2 items) := by
  refine ⟨fun w css tbl tbl' effs h => (setupGo_preserves css tbl tbl' effs h).2,
    ?_, fun w tbl1 tbl2 h => runLoop_ext h⟩
  intro w c env effs h
  obtain ⟨tbl, hG, hT⟩ := setup_ok_inv h
  have hnd := (setupGo_preserves c.copysets [] tbl effs hG).1 (by simp)
  rw [hT]
  exact hnd

/-- Witness for the amended C4 at concrete inputs. -/
theorem watch_table_append_only_amended_witness :
    lookupTable [(0, (⟨pathJoin srcBase relA, pathJoin tgtBase relA⟩ : ResolvedTarget)),
        (5, ⟨pathJoin srcBase relB, pathJoin tgtBase relB⟩)] 5 =
      some ⟨pathJoin srcBase relB, pathJoin tgtBase relB⟩ ∧
    ([(0, (⟨pathJoin srcBase relA, pathJoin tgtBase relA⟩ : ResolvedTarget))].map
      Prod.fst).Nodup ∧
    runLoop worldOk [] [StreamItem.ev 0] = runLoop worldOk [] [StreamItem.ev 0] := by
  have h := watch_table_append_only_amended
  refine ⟨h.1 worldOk [sampleCopyset]
      [(5, ⟨pathJoin srcBase relB, pathJoin tgtBase relB⟩)]
      [(0, ⟨pathJoin srcBase relA, pathJoin tgtBase relA⟩),
       (5, ⟨pathJoin srcBase relB, pathJoin tgtBase relB⟩)]
      [Effect.watchRegistered (pathJoin srcBase relA) 770 0] rfl 5
      ⟨pathJoin srcBase relB, pathJoin tgtBase relB⟩ rfl (by decide),
    h.2.1 worldOk ⟨[sampleCopyset]⟩
      ⟨[(0, ⟨pathJoin srcBase relA, pathJoin tgtBase relA⟩)]⟩
      [Effect.watchRegistered (pathJoin srcBase relA) 770 0] rfl,
    h.2.2 worldOk [] [] (fun k => rfl) [StreamItem.ev 0]⟩

/-- C6: a failure at any setup step aborts the whole setup with that error:
a failed inotify creation fails setup immediately; a failed target spec fails
its copyset immediately; and after any successful prefix of copysets, a
failing copyset fails the whole setup regardless of the copysets remaining,
so no environment is ever produced from a partial run. -/
theorem setup_failure_propagation :
    (∀ (w : World) (c : Config) (e : IoErr),
      w.initNotify = .error e → Config.setup w c = (.err e, [])) ∧
    (∀ (w : World) (cs : Copyset) (tbl : Table) (t : Target) (e : IoErr)
        (effs : List Effect) (rest : List Target),
      addTargetSpec w cs tbl t = (.err e, effs) →
      addToWatchGo w cs tbl (t :: rest) = (.err e, effs)) ∧
    (∀ (w : World) (pre : List Copyset) (cs : Copyset) (post : List Copyset)
        (tbl' : Table) (effs1 : List Effect) (e : IoErr) (effs2 : List Effect),
      w.initNotify = .ok () →
      setupGo w [] pre = (.ok tbl', effs1) →
      cs.add_to_watch w tbl' = (.err e, effs2) →
      Config.setup w ⟨pre ++ cs :: post⟩ = (.err e, effs1 ++ effs2)) := by
  refine ⟨?_, fun w cs tbl t e effs rest h => addToWatchGo_err_head h rest, ?_⟩
  · intro w c e h
    simp only [Config.setup, h]
  · intro w pre cs post tbl' effs1 e effs2 hI hpre hcs
    have happ := setupGo_append_ok pre [] tbl' effs1 hpre (cs :: post)
    rw [setupGo_err_head hcs post] at happ
    dsimp only at happ
    simp only [Config.setup, hI, happ]

/-- Witness for C6 at concrete inputs. -/
theorem setup_failure_propagation_witness :
    Config.setup worldNoNotify ⟨[sampleCopyset]⟩ = (.err ⟨7⟩, []) ∧
    addToWatchGo worldBadWatch sampleCopyset [] [sampleTarget] = (.err ⟨9⟩, []) ∧
    Config.setup worldBadWatch ⟨[] ++ sampleCopyset :: []⟩ = (.err ⟨9⟩, [] ++ []) := by
  have h := setup_failure_propagation
  exact ⟨h.1 worldNoNotify ⟨[sampleCopyset]⟩ ⟨7⟩ rfl,
    h.2.1 worldBadWatch sampleCopyset [] sampleTarget ⟨9⟩ [] [] rfl,
    h.2.2 worldBadWatch [] sampleCopyset [] [] [] ⟨9⟩ [] rfl rfl rfl⟩

/-- C7: the dispatch loop returns an error exactly when, after a prefix of
items it handles successfully, the stream yields an error item or a copy it
invokes fails with that error; and it returns success exactly when every item
of the stream is handled successfully, that is, when the stream ends without
a failure. -/
theorem dispatch_termination :
    (∀ (w : World) (tbl : Table) (items : List StreamItem) (e : IoErr),
      (runLoop w tbl items).1 = .err e ↔
      ∃ pre it post, items = pre ++ it :: post ∧
        (∀ x ∈ pre, itemOutcome w tbl x = .ok ()) ∧
        itemOutcome w tbl it = .err e) ∧
    (∀ (w : World) (tbl : Table) (items : List StreamItem),
      (runLoop w tbl items).1 = .ok () ↔
      ∀ x ∈ items, itemOutcome w tbl x = .ok ()) :=
  ⟨fun _ _ items e => runLoop_err_iff items e,
   fun _ _ items => runLoop_ok_iff items⟩

/-- Witness for C7 at concrete inputs. -/
theorem dispatch_termination_witness :
    (runLoop worldOk [] [StreamItem.err ⟨5⟩]).1 = .err ⟨5⟩ ∧
    (runLoop worldOk [] [StreamItem.ev 0]).1 = .ok () := by
  have h := dispatch_termination
  refine ⟨(h.1 worldOk [] [StreamItem.err ⟨5⟩] ⟨5⟩).mpr
      ⟨[], StreamItem.err ⟨5⟩, [], rfl, by simp, rfl⟩, ?_⟩
  refine (h.2 worldOk [] [StreamItem.ev 0]).mpr ?_
  intro x hx
  rcases List.mem_singleton.mp hx with rfl
  rfl

/-- C8: an event whose watch descriptor is not in the table triggers no copy
and no error: the loop logs an unknown-descriptor warning and continues with
the remaining events exactly as if the event had not occurred. -/
theorem unknown_wd_skipped :
    ∀ (w : World) (tbl : Table) (wd : Nat) (rest : List StreamItem),
      lookupTable tbl wd = none →
      runLoop w tbl (.ev wd :: rest) =
        ((runLoop w tbl rest).1, .warnedUnknown wd :: (runLoop w tbl rest).2) := by
  intro w tbl wd rest h
  simp [runLoop, h]

/-- Witness for C8 at concrete inputs. -/
theorem unknown_wd_skipped_witness :
    runLoop worldOk [] [StreamItem.ev 3] =
      ((runLoop worldOk [] []).1, .warnedUnknown 3 :: (runLoop worldOk [] []).2) :=
  unknown_wd_skipped worldOk [] 3 [] rfl

/-- C9: when the existence check for a resolved target fails, setup for that
target spec continues exactly as if the target did not exist — proceeding to
the initial-copy decision and the watch registration — and the failure only
adds a logged warning to the trace. -/
theorem exists_check_failure_nonfatal :
    ∀ (w : World) (cs : Copyset) (tbl : Table) (t : Target) (e : IoErr),
      w.tryExists (resolvedTargetPath cs t) = .error e →
      addTargetSpec w cs tbl t =
        ((addTargetSpecCore w cs tbl t false).1,
         .existsCheckWarned (resolvedTargetPath cs t) ::
           (addTargetSpecCore w cs tbl t false).2) :=
  fun _ _ tbl _ _ h => addTargetSpec_check_failed tbl h

/-- Witness for C9 at concrete inputs. -/
theorem exists_check_failure_nonfatal_witness :
    addTargetSpec worldBadCheck sampleCopyset [] sampleTarget =
      ((addTargetSpecCore worldBadCheck sampleCopyset [] sampleTarget false).1,
       .existsCheckWarned (resolvedTargetPath sampleCopyset sampleTarget) ::
         (addTargetSpecCore worldBadCheck sampleCopyset [] sampleTarget false).2) :=
  exists_check_failure_nonfatal worldBadCheck sampleCopyset [] sampleTarget ⟨3⟩ rfl

/-- C10: a present-but-empty events list on a target spec yields the empty
mask (no event kind triggers a copy), not the copyset default; only an absent
events field inherits the copyset's event list; and the default mask is the
nonzero constant 770 (CREATE | DELETE | MODIFY). -/
theorem empty_events_override :
    (∀ (cs : Copyset) (t : Target), t.events = some [] → effectiveMask cs t = 0) ∧
    (∀ (cs : Copyset) (t : Target), t.events = none →
      effectiveEventList cs t = cs.events) ∧
    (∀ (w : World) (cs : Copyset) (tbl : Table) (t : Target)
        (tbl' : Table) (effs : List Effect),
      t.events = some [] → addTargetSpec w cs tbl t = (.ok tbl', effs) →
      ∃ wd pre, w.addWatch (resolvedSourcePath cs t) 0 = .ok wd ∧
        effs = pre ++ [.watchRegistered (resolvedSourcePath cs t) 0 wd]) ∧
    watchMaskOfEvents Config.default_events = 770 := by
  have hmask : ∀ (cs : Copyset) (t : Target), t.events = some [] →
      effectiveMask cs t = 0 := by
    intro cs t h
    simp [effectiveMask, effectiveEventList, h, watchMaskOfEvents]
  refine ⟨hmask, ?_, ?_, by decide⟩
  · intro cs t h
    simp [effectiveEventList, h]
  · intro w cs tbl t tbl' effs ht h
    obtain ⟨wd, hW, -, -, pre, hpre⟩ := addTargetSpec_ok_shape h
    rw [hmask cs t ht] at hW hpre
    exact ⟨wd, pre, hW, hpre⟩

/-- Witness for C10 at concrete inputs. -/
theorem empty_events_override_witness :
    effectiveMask sampleCopyset sampleTargetEmptyEvents = 0 ∧
    effectiveEventList sampleCopyset sampleTarget = sampleCopyset.events ∧
    (∃ wd pre, worldOk.addWatch
        (resolvedSourcePath sampleCopyset sampleTargetEmptyEvents) 0 = .ok wd ∧
      [Effect.watchRegistered (pathJoin srcBase relA) 0 0] = pre ++
        [Effect.watchRegistered
          (resolvedSourcePath sampleCopyset sampleTargetEmptyEvents) 0 wd]) := by
  have h := empty_events_override
  exact ⟨h.1 sampleCopyset sampleTargetEmptyEvents rfl,
    h.2.1 sampleCopyset sampleTarget rfl,
    h.2.2.1 worldOk sampleCopyset [] sampleTargetEmptyEvents
      [(0, ⟨pathJoin srcBase relA, pathJoin tgtBase relA⟩)]
      [Effect.watchRegistered (pathJoin srcBase relA) 0 0] rfl rfl⟩

end ContainerCopier
